import Mathlib

/-!
Shallow embedding of the `eventsource` Go package: the error taxonomy
(`errors.go`), the in-memory `Store` (`store.go`), and the `Repository`
orchestration (`repository.go`), together with theorems checking the
natural-language specification against this embedding.
-/

namespace EventSource

/-- Go error values as manipulated by this package.  `base` models the
`errorType` string constants of `errors.go`, `str` models `errors.New` /
`fmt.Errorf` without a `%w` verb (no unwrappable cause), and `wrap` models
`xerrors.Errorf("...: %w", cause)` (a message plus an unwrappable cause). -/
inductive Err where
  | base (code : String)
  | str (msg : String)
  | wrap (msg : String) (cause : Err)
deriving DecidableEq, Repr

/-- The rendered message of an error; `wrap` renders as `msg: cause`, the way
`xerrors.Errorf("...%v...: %w", ...)` formats.  Used to model `fmt.Errorf`
interpolating an error with the `%v` verb (which does not wrap). -/
def Err.message : Err → String
  | .base code => code
  | .str msg => msg
  | .wrap msg cause => msg ++ ": " ++ cause.message

/-- `xerrors.Is(e, target)`: compares `e` with `target`, unwrapping the chain
of `%w` causes. -/
def Err.is (e target : Err) : Bool :=
  match e with
  | .wrap msg cause => decide (Err.wrap msg cause = target) || Err.is cause target
  | e' => decide (e' = target)

/-- `errInvalidEncoding` from `errors.go`. -/
def errInvalidEncoding : Err := .base "InvalidEncoding"

/-- `errUnboundEventType` from `errors.go`. -/
def errUnboundEventType : Err := .base "UnboundEventType"

/-- `errAggregateNotFound` from `errors.go`. -/
def errAggregateNotFound : Err := .base "AggregateNotFound"

/-- `errUnhandledEvent` from `errors.go` (declared there; the doc comment in
the source says it "occurs when the Aggregate is unable to handle an event and
returns a non-nil err"). -/
def errUnhandledEvent : Err := .base "UnhandledEvent"

/-- `IsNotFoundError` from `errors.go`: `xerrors.Is(err, errAggregateNotFound)`. -/
def IsNotFoundError (err : Err) : Bool :=
  err.is errAggregateNotFound

/-- `Record` from `store.go`: a version plus the event in serialized form
(`Data []byte`, bytes modelled as naturals). -/
structure Record where
  version : Int
  data : List Nat
deriving DecidableEq, Repr

/-- `History` from `store.go`. -/
def History := List Record
deriving DecidableEq, Repr

/-- `History.Less` from `store.go` compares `Version` with `<`; sorting a
history therefore orders it by non-strict `≤` on versions.  This is that
ordering relation. -/
def Record.le (a b : Record) : Prop := a.version ≤ b.version

/-- Strict version order on records. -/
def Record.lt (a b : Record) : Prop := a.version < b.version

instance : DecidableRel Record.le := fun a b => Int.decLe a.version b.version

instance : IsTotal Record Record.le := ⟨fun a b => Int.le_total a.version b.version⟩

instance : IsTrans Record Record.le := ⟨fun _ _ _ h₁ h₂ => le_trans h₁ h₂⟩

/-- The `memoryStore` of `store.go`: a map from aggregate id to its `History`
(`eventsByID`), modelled as a function into `Option`. -/
def MemoryStore := String → Option (List Record)

/-- `newMemoryStore` from `store.go`: an empty map. -/
def newMemoryStore : MemoryStore := fun _ => none

/-- `memoryStore.Save` from `store.go`: appends the records to the existing
history for the id (creating an empty history first when absent), sorts the
result by version (`sort.Sort`, an unstable comparison sort, modelled here by
insertion sort — any correct sort for `History.Less` produces a `Record.le`-
sorted permutation of its input), and stores it back. -/
def MemoryStore.save (m : MemoryStore) (aggregateID : String) (records : List Record) :
    MemoryStore :=
  let history := ((m aggregateID).getD []) ++ records
  let sorted := List.insertionSort Record.le history
  fun id => if id = aggregateID then some sorted else m id

/-- `memoryStore.Load` from `store.go`: fails with a wrapped
`errAggregateNotFound` when the id is absent from the map; otherwise it
computes the `history` filtered to `version >= fromVersion && (toVersion == 0
|| version <= toVersion)` — but then returns the unfiltered `all` slice, as
the source does on its final line. -/
def MemoryStore.load (m : MemoryStore) (aggregateID : String)
    (fromVersion toVersion : Int) : Except Err (List Record) :=
  match m aggregateID with
  | none =>
      .error (.wrap ("no aggregate found with id, " ++ aggregateID) errAggregateNotFound)
  | some all =>
      let _history := all.filter fun record =>
        fromVersion ≤ record.version && (toVersion == 0 || record.version ≤ toVersion)
      .ok all

/-- The filter documented in the `Store.Load` contract, for comparison with
what `memoryStore.Load` actually returns. -/
def loadContractFilter (all : List Record) (fromVersion toVersion : Int) : List Record :=
  all.filter fun record =>
    fromVersion ≤ record.version && (toVersion == 0 || record.version ≤ toVersion)

/-- Runs a script of `memoryStore.Save` calls (each entry an aggregate id and
the records passed to that call), starting from a given store. -/
def MemoryStore.runSaves (m : MemoryStore) : List (String × List Record) → MemoryStore
  | [] => m
  | (aggregateID, records) :: rest => (m.save aggregateID records).runSaves rest

/-- All records a script saves under a given aggregate id, in call order. -/
def savedFor (aggregateID : String) : List (String × List Record) → List Record
  | [] => []
  | (id, records) :: rest =>
      if id = aggregateID then records ++ savedFor aggregateID rest
      else savedFor aggregateID rest

/-- A store write performed by the `Repository`: either `Store.Save` or the
deprecated `StoreAggregate.SaveAggregate` (which carries the folded aggregate). -/
inductive StoreOp (A : Type) where
  | save (aggregateID : String) (records : List Record)
  | saveAggregate (aggregateID : String) (aggregate : A) (records : List Record)
deriving DecidableEq

/-- The outcome of `Repository.Save`: the store state afterwards, the store
writes it performed (in order), and Go's returned `error`. -/
structure SaveOut (σ A : Type) where
  state : σ
  ops : List (StoreOp A)
  err : Option Err
deriving DecidableEq

/-- The outcome of `Repository.Apply`: the store state afterwards, the store
writes performed, the observer invocations (event paired with observer index,
in invocation order), and Go's two returned values `(version, error)`. -/
structure ApplyOut (σ A E : Type) where
  state : σ
  ops : List (StoreOp A)
  published : List (E × Nat)
  version : Int
  err : Option Err
deriving DecidableEq

/-- `Repository` from `repository.go`, shallowly embedded over a store-state
type `σ`, an aggregate-state type `A`, an event type `E` and a command type
`C`.  Go interface methods become function-valued fields; the two optional
store capabilities (`r.store.(StoreAggregate)` and `r.store.(AggregateSaver)`
type assertions) become `Option`-valued fields, and the optional
`CommandHandler` capability of the aggregate likewise.  `zero` is
`newAggregate` (a zero value of the prototype's type); `On` is
`Aggregate.On`, state-passing because Go mutates the receiver.  `eventType`
models the package-level `EventType` helper (modelled from the spec: the
event's registered type name, derived from the concrete type's name unless
overridden by an `EventType()` method — its defining source file is not among
the provided files).  `observerCount` is the number of registered observer
callbacks. -/
structure Repository (σ A E C : Type) where
  zero : A
  On : A → E → Except Err A
  handler : Option (A → C → Except Err (List E))
  eventAggregateID : E → String
  eventVersion : E → Int
  eventType : E → String
  commandAggregateID : C → String
  marshalEvent : E → Except Err Record
  unmarshalEvent : Record → Except Err E
  storeLoad : σ → String → Int → Int → Except Err (List Record)
  storeSave : σ → String → List Record → σ × Option Err
  storeAggregateSave : Option (σ → String → A → List Record → σ × Option Err)
  aggregateSaver : Option (σ → String → A → List E → List Record → σ × Option Err)
  observerCount : Nat

variable {σ A E C : Type}

/-- `Repository.makeRecords` from `repository.go`: marshals the events in
order, short-circuiting on the first serializer error. -/
def Repository.makeRecords (r : Repository σ A E C) : List E → Except Err (List Record)
  | [] => .ok []
  | event :: rest =>
      match r.marshalEvent event with
      | .error err => .error err
      | .ok record =>
          match r.makeRecords rest with
          | .error err => .error err
          | .ok records => .ok (record :: records)

/-- The loop inside `Repository.Load`: for each record, unmarshal it
(propagating serializer errors unchanged), fold it into the aggregate with
`On` (wrapping an `On` failure in a message naming the event type, with `%w`),
and remember the event's version. -/
def Repository.loadFold (r : Repository σ A E C) :
    A → Int → List Record → Except Err (A × Int)
  | aggregate, version, [] => .ok (aggregate, version)
  | aggregate, _version, record :: rest =>
      match r.unmarshalEvent record with
      | .error err => .error err
      | .ok event =>
          match r.On aggregate event with
          | .error err =>
              .error (.wrap ("aggregate was unable to handle event, " ++ r.eventType event) err)
          | .ok aggregate' => r.loadFold aggregate' (r.eventVersion event) rest

/-- `Repository.Load` from `repository.go`: calls `Store.Load` over the full
range, propagates its error unchanged, fails with a wrapped
`errAggregateNotFound` on an empty history (the message names the aggregate
type and id), and otherwise folds the history into a fresh zero-value
aggregate, returning it with the last applied event's version. -/
def Repository.load (r : Repository σ A E C) (s : σ) (aggregateID : String) :
    Except Err (A × Int) :=
  match r.storeLoad s aggregateID 0 0 with
  | .error err => .error err
  | .ok history =>
      if history.length = 0 then
        .error (.wrap ("unable to load aggregate, " ++ aggregateID) errAggregateNotFound)
      else
        r.loadFold r.zero 0 history

/-- `Repository.Save` from `repository.go`: immediate success on an empty
event list (without touching the store); otherwise takes the aggregate id
from the first event, marshals all events, and delegates to `Store.Save`. -/
def Repository.save (r : Repository σ A E C) (s : σ) (events : List E) : SaveOut σ A :=
  match events with
  | [] => ⟨s, [], none⟩
  | event0 :: _ =>
      let aggregateID := r.eventAggregateID event0
      match r.makeRecords events with
      | .error err => ⟨s, [], some err⟩
      | .ok records =>
          let saved := r.storeSave s aggregateID records
          ⟨saved.1, [.save aggregateID records], saved.2⟩

/-- Lines 180–183 of `repository.go`: load the aggregate, and on any `Load`
error substitute a fresh zero-value aggregate; `version` keeps the 0 that
`Load` returns on every error path. -/
def Repository.loadOrFresh (r : Repository σ A E C) (s : σ) (aggregateID : String) :
    A × Int :=
  match r.load s aggregateID with
  | .ok av => av
  | .error _ => (r.zero, 0)

/-- The loop inside the `StoreAggregate` branch of `Repository.Apply`: folds
each generated event into the aggregate with `On`, stopping at the first
failure. -/
def Repository.applyEvents (r : Repository σ A E C) : A → List E → Except Err A
  | aggregate, [] => .ok aggregate
  | aggregate, event :: rest =>
      match r.On aggregate event with
      | .error err => .error err
      | .ok aggregate' => r.applyEvents aggregate' rest

/-- The tail of `Repository.Apply` (lines 214–227): overwrite `version` with
the last generated event's version when any events were generated, then
publish every event, in generation order, to every registered observer, and
return `(version, nil)`. -/
def Repository.finish (r : Repository σ A E C) (s : σ) (ops : List (StoreOp A))
    (events : List E) (version : Int) : ApplyOut σ A E :=
  let version :=
    match events.getLast? with
    | some event => r.eventVersion event
    | none => version
  ⟨s, ops, events.flatMap fun event => (List.range r.observerCount).map fun i => (event, i),
    version, none⟩

/-- The body of `Repository.Apply` after the `Load` step (lines 185–227):
require the `CommandHandler` capability, run the handler (propagating its
error unchanged), marshal the events, and persist — through
`StoreAggregate.SaveAggregate` (after folding the new events into the
in-memory aggregate, turning a fold failure into a `fmt.Errorf` message via
`%v`, which does not wrap) when the store advertises that capability, and
through `Repository.Save` otherwise.  Every error path returns version 0. -/
def Repository.applyWith (r : Repository σ A E C) (s : σ) (command : C)
    (aggregateID : String) (aggregate : A) (version : Int) : ApplyOut σ A E :=
  match r.handler with
  | none => ⟨s, [], [], 0, some (.str "aggregate does not implement CommandHandler")⟩
  | some handle =>
      match handle aggregate command with
      | .error err => ⟨s, [], [], 0, some err⟩
      | .ok events =>
          match r.makeRecords events with
          | .error err => ⟨s, [], [], 0, some err⟩
          | .ok records =>
              match r.storeAggregateSave with
              | some saveAggregate =>
                  match r.applyEvents aggregate events with
                  | .error err =>
                      ⟨s, [], [], 0,
                        some (.str ("unable to apply generated events to aggregate, "
                          ++ aggregateID ++ ": " ++ err.message))⟩
                  | .ok aggregate' =>
                      let saved := saveAggregate s aggregateID aggregate' records
                      match saved.2 with
                      | some err =>
                          ⟨saved.1, [.saveAggregate aggregateID aggregate' records], [], 0,
                            some err⟩
                      | none =>
                          r.finish saved.1 [.saveAggregate aggregateID aggregate' records]
                            events version
              | none =>
                  let saved := r.save s events
                  match saved.err with
                  | some err => ⟨saved.state, saved.ops, [], 0, some err⟩
                  | none => r.finish saved.state saved.ops events version

/-- Modelled from the spec: the `Serializer` implementation
(`NewJSONSerializer` and its event type registry) is not among the provided
source files — only its callers and tests are.  An event value, as the
serializer sees it: a type-name tag used for registry routing, plus the
identity/version/timestamp contract of §3 and the domain fields, here a list
of named string fields ("a generic structured self-describing encoding of
each event's fields, tagged with its type name"). -/
structure SpecEvent where
  typeName : String
  aggregateID : String
  version : Int
  occurredAt : Int
  fields : List (String × String)
deriving DecidableEq, Repr

/-- Length-prefixed byte encoding of a string (the self-describing payload
codec, whose details the spec leaves to the payload encoder). -/
def encStr (s : String) : List Nat :=
  s.length :: s.data.map Char.toNat

/-- Tagged byte encoding of an integer. -/
def encInt : Int → List Nat
  | .ofNat n => [0, n]
  | .negSucc n => [1, n]

/-- Byte encoding of the named fields, each key and value self-delimiting. -/
def encPairs : List (String × String) → List Nat
  | [] => []
  | (k, v) :: rest => encStr k ++ encStr v ++ encPairs rest

/-- Modelled from the spec: the self-describing encoding of one event,
tagged with its type name. -/
def encodeEvent (e : SpecEvent) : List Nat :=
  encStr e.typeName ++ encStr e.aggregateID ++ encInt e.version ++ encInt e.occurredAt
    ++ (e.fields.length :: encPairs e.fields)

/-- Decoder for `encStr`. -/
def decStr : List Nat → Option (String × List Nat)
  | [] => none
  | n :: rest =>
      if n ≤ rest.length then
        some (String.mk ((rest.take n).map Char.ofNat), rest.drop n)
      else none

/-- Decoder for `encInt`. -/
def decInt : List Nat → Option (Int × List Nat)
  | 0 :: n :: rest => some (Int.ofNat n, rest)
  | 1 :: n :: rest => some (Int.negSucc n, rest)
  | _ => none

/-- Decoder for `encPairs`, reading a known number of pairs. -/
def decPairs : Nat → List Nat → Option (List (String × String) × List Nat)
  | 0, bs => some ([], bs)
  | count + 1, bs =>
      match decStr bs with
      | none => none
      | some (k, bs₁) =>
          match decStr bs₁ with
          | none => none
          | some (v, bs₂) =>
              match decPairs count bs₂ with
              | none => none
              | some (rest, bs₃) => some ((k, v) :: rest, bs₃)

/-- Decoder for `encodeEvent`. -/
def decodeEvent (bs : List Nat) : Option SpecEvent :=
  match decStr bs with
  | none => none
  | some (typeName, bs₁) =>
      match decStr bs₁ with
      | none => none
      | some (aggregateID, bs₂) =>
          match decInt bs₂ with
          | none => none
          | some (version, bs₃) =>
              match decInt bs₃ with
              | none => none
              | some (occurredAt, bs₄) =>
                  match bs₄ with
                  | [] => none
                  | count :: bs₅ =>
                      match decPairs count bs₅ with
                      | none => none
                      | some (fields, _) =>
                          some ⟨typeName, aggregateID, version, occurredAt, fields⟩

/-- Modelled from the spec: the Serializer's type registry — "a mapping from
a string event-type name to a zero-value prototype of the corresponding event
type", "built once, at construction, from a variadic list of example values
(... only the type matters)".  Since decoding in this model rebuilds the event
from its self-describing payload, only the set of registered names is
needed. -/
structure SpecSerializer where
  eventTypes : List String
deriving DecidableEq

/-- Modelled from the spec: `NewJSONSerializer(events...)` registers the type
name of every example event. -/
def NewSpecSerializer (events : List SpecEvent) : SpecSerializer :=
  ⟨events.map fun e => e.typeName⟩

/-- Modelled from the spec: `MarshalEvent(event)` "encodes one event's payload
and records its type name", producing a `Record` carrying the event's
version. -/
def SpecSerializer.marshalEvent (_s : SpecSerializer) (event : SpecEvent) :
    Except Err Record :=
  .ok ⟨event.version, encodeEvent event⟩

/-- Modelled from the spec: `UnmarshalEvent(record)` "looks up the concrete
type via the type name embedded in the encoding", fails with
`UnboundEventType` when the name was never registered, with `InvalidEncoding`
when payload decoding fails, and otherwise materializes the event. -/
def SpecSerializer.unmarshalEvent (s : SpecSerializer) (record : Record) :
    Except Err SpecEvent :=
  match decodeEvent record.data with
  | none => .error (.wrap "unable to decode event" errInvalidEncoding)
  | some event =>
      if event.typeName ∈ s.eventTypes then .ok event
      else .error (.wrap ("unbound event type, " ++ event.typeName) errUnboundEventType)

/-- `Repository.Apply` from `repository.go`: fail fast on a `nil` command or a
blank aggregate id, load the current state (substituting a fresh zero-value
aggregate on any `Load` error), and continue with `applyWith`. -/
def Repository.apply (r : Repository σ A E C) (s : σ) (command : Option C) :
    ApplyOut σ A E :=
  match command with
  | none => ⟨s, [], [], 0, some (.str "command provided to Repository.Apply may not be nil")⟩
  | some command =>
      let aggregateID := r.commandAggregateID command
      if aggregateID = "" then
        ⟨s, [], [], 0,
          some (.str "command provided to Repository.Apply may not contain a blank AggregateID")⟩
      else
        let av := r.loadOrFresh s aggregateID
        r.applyWith s command aggregateID av.1 av.2

/-! ## Serializer round-trip lemmas -/

theorem decStr_encStr (s : String) (rest : List Nat) :
    decStr (encStr s ++ rest) = some (s, rest) := by
  have hlen : s.length = (s.data.map Char.toNat).length := by
    rw [List.length_map]; rfl
  have hid : List.map (Char.ofNat ∘ Char.toNat) s.data = s.data := by
    have h2 : (Char.ofNat ∘ Char.toNat) = id := funext fun c => Char.ofNat_toNat c
    rw [h2, List.map_id]
  simp only [encStr, List.cons_append, decStr, hlen, List.take_left, List.drop_left,
    List.length_append, Nat.le_add_right, if_true, List.map_map, hid]

theorem decInt_encInt (i : Int) (rest : List Nat) :
    decInt (encInt i ++ rest) = some (i, rest) := by
  cases i <;> rfl

theorem decPairs_encPairs (l : List (String × String)) (rest : List Nat) :
    decPairs l.length (encPairs l ++ rest) = some (l, rest) := by
  induction l generalizing rest with
  | nil => rfl
  | cons kv t ih =>
      obtain ⟨k, v⟩ := kv
      simp only [encPairs, List.length_cons, decPairs, List.append_assoc, decStr_encStr, ih]

theorem decodeEvent_encodeEvent (e : SpecEvent) :
    decodeEvent (encodeEvent e) = some e := by
  obtain ⟨tn, aid, ver, occ, fs⟩ := e
  have h : encodeEvent ⟨tn, aid, ver, occ, fs⟩ =
      encStr tn ++ (encStr aid ++ (encInt ver ++ (encInt occ ++ (fs.length :: encPairs fs)))) := by
    simp [encodeEvent, List.append_assoc]
  rw [h]
  have hp := decPairs_encPairs fs []
  rw [List.append_nil] at hp
  simp only [decodeEvent, decStr_encStr, decInt_encInt, hp]

/-! ## Claim theorems -/

/-- C9: for every event value whose type was registered with a Serializer,
`UnmarshalEvent` applied to the result of `MarshalEvent` on that event
reproduces a value deeply equal to the original event.  (The Serializer is
modelled from the spec; its source file is not among the provided files.) -/
theorem serializer_roundtrip (examples : List SpecEvent) (event : SpecEvent)
    (h : event.typeName ∈ (NewSpecSerializer examples).eventTypes) :
    ∃ record, (NewSpecSerializer examples).marshalEvent event = .ok record ∧
      (NewSpecSerializer examples).unmarshalEvent record = .ok event := by
  refine ⟨⟨event.version, encodeEvent event⟩, rfl, ?_⟩
  simp only [SpecSerializer.unmarshalEvent, decodeEvent_encodeEvent]
  rw [if_pos h]

/-- Witness for C9 at a concrete registered event. -/
theorem serializer_roundtrip_witness :
    (⟨"Created", "123", 1, 5, [("Name", "Jones")]⟩ : SpecEvent).typeName ∈
        (NewSpecSerializer [⟨"Created", "", 0, 0, []⟩]).eventTypes ∧
      ∃ record,
        (NewSpecSerializer [⟨"Created", "", 0, 0, []⟩]).marshalEvent
            ⟨"Created", "123", 1, 5, [("Name", "Jones")]⟩ = .ok record ∧
          (NewSpecSerializer [⟨"Created", "", 0, 0, []⟩]).unmarshalEvent record =
            .ok ⟨"Created", "123", 1, 5, [("Name", "Jones")]⟩ :=
  ⟨by decide, serializer_roundtrip [⟨"Created", "", 0, 0, []⟩]
    ⟨"Created", "123", 1, 5, [("Name", "Jones")]⟩ (by decide)⟩

/-- A concrete in-memory store holding versions 1, 2, 3 for aggregate `"a"`. -/
def storeC1 : MemoryStore :=
  newMemoryStore.save "a" [⟨1, []⟩, ⟨2, []⟩, ⟨3, []⟩]

/-- C1: `memoryStore.Load` is claimed to return exactly the records with
`version >= fromVersion` and (`toVersion == 0` or `version <= toVersion`).
The code computes that filter but returns the unfiltered history: loading
`("a", fromVersion 2, toVersion 2)` from a store holding versions 1, 2, 3
returns all three records, while the documented contract selects only
version 2. -/
theorem memoryStore_load_ignores_version_filter :
    storeC1.load "a" 2 2 = .ok [⟨1, []⟩, ⟨2, []⟩, ⟨3, []⟩] ∧
      loadContractFilter [⟨1, []⟩, ⟨2, []⟩, ⟨3, []⟩] 2 2 = [⟨2, []⟩] ∧
      ([⟨1, []⟩, ⟨2, []⟩, ⟨3, []⟩] : List Record) ≠ [⟨2, []⟩] :=
  ⟨rfl, rfl, by decide⟩

/-- Looking up the id a `memoryStore.Save` wrote gives the sorted extended
history. -/
theorem save_lookup_eq (m : MemoryStore) (i : String) (recs : List Record) :
    (m.save i recs) i = some (List.insertionSort Record.le (((m i).getD []) ++ recs)) := by
  simp [MemoryStore.save]

/-- Looking up any other id after a `memoryStore.Save` is unchanged. -/
theorem save_lookup_ne (m : MemoryStore) (i : String) (recs : List Record) (id : String)
    (h : id ≠ i) : (m.save i recs) id = m id := by
  simp [MemoryStore.save, h]

/-- Every history in the store stays `Record.le`-sorted across any script of
`memoryStore.Save` calls (sort on write). -/
theorem runSaves_sorted (script : List (String × List Record)) (m : MemoryStore)
    (hm : ∀ id h, m id = some h → List.Sorted Record.le h) :
    ∀ id h, (m.runSaves script) id = some h → List.Sorted Record.le h := by
  induction script generalizing m with
  | nil => exact hm
  | cons entry t ih =>
      obtain ⟨i, recs⟩ := entry
      refine ih (m.save i recs) ?_
      intro id h hsome
      by_cases hq : id = i
      · subst hq
        rw [save_lookup_eq] at hsome
        cases hsome
        exact List.sorted_insertionSort Record.le _
      · rw [save_lookup_ne m i recs id hq] at hsome
        exact hm id h hsome

/-- The stored history for an id is a permutation of what was there initially
plus everything a save script wrote under that id. -/
theorem runSaves_contents (script : List (String × List Record)) (m : MemoryStore)
    (aggregateID : String) :
    (((m.runSaves script) aggregateID).getD []).Perm
      (((m aggregateID).getD []) ++ savedFor aggregateID script) := by
  induction script generalizing m with
  | nil => simp [MemoryStore.runSaves, savedFor]
  | cons entry t ih =>
      obtain ⟨i, recs⟩ := entry
      have step := ih (m.save i recs)
      simp only [MemoryStore.runSaves]
      refine step.trans ?_
      by_cases hq : i = aggregateID
      · subst hq
        rw [save_lookup_eq, savedFor, if_pos rfl, Option.getD_some]
        have h1 : (List.insertionSort Record.le (((m i).getD []) ++ recs)).Perm
            (((m i).getD []) ++ recs) := List.perm_insertionSort Record.le _
        have h2 := h1.append_right (savedFor i t)
        rw [List.append_assoc] at h2
        exact h2
      · have hq' : aggregateID ≠ i := fun h => hq h.symm
        rw [save_lookup_ne m i recs aggregateID hq', savedFor, if_neg hq]

/-- A `≤`-sorted history with pairwise-distinct versions is `<`-sorted. -/
theorem sorted_strict (h : List Record) (hs : h.Sorted Record.le)
    (hd : h.Pairwise fun a b => a.version ≠ b.version) : h.Sorted Record.lt :=
  (List.Pairwise.and hs hd).imp fun hab => lt_of_le_of_ne hab.1 hab.2

/-- C7: for every set of records saved to the in-memory store across any
number of `Save` calls in any call order, the stored history stays sorted
ascending by version, so a subsequent `Load` returns exactly the saved
records (as a permutation of everything saved under the id), sorted ascending
— strictly so when the saved versions are pairwise distinct. -/
theorem memoryStore_save_keeps_history_sorted (script : List (String × List Record))
    (aggregateID : String) (fromVersion toVersion : Int) (h : List Record)
    (hload : (newMemoryStore.runSaves script).load aggregateID fromVersion toVersion = .ok h) :
    h.Sorted Record.le ∧ h.Perm (savedFor aggregateID script) ∧
      ((h.Pairwise fun a b => a.version ≠ b.version) → h.Sorted Record.lt) := by
  have hsome : (newMemoryStore.runSaves script) aggregateID = some h := by
    revert hload
    unfold MemoryStore.load
    cases hm : (newMemoryStore.runSaves script) aggregateID with
    | none => intro hload; cases hload
    | some all => intro hload; cases hload; rfl
  have hsorted := runSaves_sorted script newMemoryStore
    (fun _ _ hx => by cases hx) aggregateID h hsome
  have hperm := runSaves_contents script newMemoryStore aggregateID
  rw [hsome, Option.getD_some] at hperm
  have hnil : ((newMemoryStore aggregateID).getD []) ++ savedFor aggregateID script
      = savedFor aggregateID script := rfl
  rw [hnil] at hperm
  exact ⟨hsorted, hperm, fun hd => sorted_strict h hsorted hd⟩

/-- Witness for C7: saving version 2 and then version 1 for `"a"` in two
calls, `Load` returns them sorted `[1, 2]`. -/
theorem memoryStore_save_keeps_history_sorted_witness :
    ([⟨1, []⟩, ⟨2, []⟩] : List Record).Sorted Record.le ∧
      ([⟨1, []⟩, ⟨2, []⟩] : List Record).Perm
        (savedFor "a" [("a", [⟨2, []⟩]), ("a", [⟨1, []⟩])]) ∧
      ((([⟨1, []⟩, ⟨2, []⟩] : List Record).Pairwise fun a b => a.version ≠ b.version) →
        ([⟨1, []⟩, ⟨2, []⟩] : List Record).Sorted Record.lt) :=
  memoryStore_save_keeps_history_sorted [("a", [⟨2, []⟩]), ("a", [⟨1, []⟩])] "a" 0 0
    [⟨1, []⟩, ⟨2, []⟩] rfl

/-- Every error-returning branch of `applyWith` reports version 0 and an empty
observer trace, and a non-empty observer trace only arises from the final
success record. -/
theorem applyWith_err_version (r : Repository σ A E C) (s : σ) (command : C)
    (aggregateID : String) (aggregate : A) (version : Int) :
    ((r.applyWith s command aggregateID aggregate version).err ≠ none →
        (r.applyWith s command aggregateID aggregate version).version = 0 ∧
          (r.applyWith s command aggregateID aggregate version).published = []) ∧
      ((r.applyWith s command aggregateID aggregate version).published ≠ [] →
        (r.applyWith s command aggregateID aggregate version).err = none) := by
  unfold Repository.applyWith
  repeat' split
  · simp
  · simp
  · simp
  · simp
  · rename_i records2 heqr xs saveAgg heqs xa aggregate2 heqa
    cases hs : (saveAgg s aggregateID aggregate2 records2).2 <;> simp [hs, Repository.finish]
  · rename_i x2 events2 heq2 x1 records2 heq1 x0 heq0
    cases hs : (r.save s events2).err <;> simp [hs, Repository.finish]

/-- C10: for every `Apply` call that returns a non-nil error (nil or blank-id
command, missing command-handler capability, handler failure, encoding
failure, or persistence failure), the returned version is 0 and no registered
observer is invoked; observers are invoked only on the success path, after
persistence has succeeded. -/
theorem apply_error_returns_zero_and_publishes_nothing (r : Repository σ A E C) (s : σ)
    (command : Option C) :
    ((r.apply s command).err ≠ none →
        (r.apply s command).version = 0 ∧ (r.apply s command).published = []) ∧
      ((r.apply s command).published ≠ [] → (r.apply s command).err = none) := by
  unfold Repository.apply
  cases command with
  | none => simp
  | some c =>
      by_cases hid : r.commandAggregateID c = ""
      · simp [hid]
      · simp only [if_neg hid]
        exact applyWith_err_version r s c _ _ _

/-- C2 (amended): inside `Repository.Apply`, EVERY `Load` failure — not only
an `AggregateNotFound`-classified one — is swallowed by substituting a fresh
zero-value aggregate (with version 0) and continuing; no `Load` error
propagates to `Apply`'s caller, and the outcome does not depend on which
error `Load` returned. -/
theorem apply_load_error_substitutes_fresh_aggregate (r : Repository σ A E C) (s : σ)
    (command : C) (e : Err)
    (hid : r.commandAggregateID command ≠ "")
    (hload : r.load s (r.commandAggregateID command) = .error e) :
    r.apply s (some command) =
      r.applyWith s command (r.commandAggregateID command) r.zero 0 := by
  unfold Repository.apply
  simp only [if_neg hid]
  unfold Repository.loadOrFresh
  rw [hload]

/-- C4 (amended): whenever the bound store advertises the deprecated
`StoreAggregate` capability (the one capability `Repository.Apply` actually
type-asserts; the `AggregateSaver` capability is never consulted), `Apply`
first folds the newly generated events into the in-memory aggregate and then
persists the folded aggregate together with the records through that
capability — its single store write — and never through the plain `Save`
path. -/
theorem storeAggregate_path_folds_then_saves (r : Repository σ A E C) (s : σ) (command : C)
    (saveAgg : σ → String → A → List Record → σ × Option Err)
    (hdl : A → C → Except Err (List E)) (a : A) (v : Int) (events : List E)
    (records : List Record) (a' : A)
    (hsa : r.storeAggregateSave = some saveAgg)
    (hid : r.commandAggregateID command ≠ "")
    (hh : r.handler = some hdl)
    (hav : r.loadOrFresh s (r.commandAggregateID command) = (a, v))
    (hevents : hdl a command = .ok events)
    (hrecords : r.makeRecords events = .ok records)
    (hfold : r.applyEvents a events = .ok a') :
    (r.apply s (some command)).ops =
      [.saveAggregate (r.commandAggregateID command) a' records] := by
  unfold Repository.apply
  simp only [if_neg hid]
  rw [hav]
  unfold Repository.applyWith
  rw [hh]
  simp only
  rw [hevents]
  simp only
  rw [hrecords]
  simp only
  rw [hsa]
  simp only
  rw [hfold]
  simp only
  cases hs : (saveAgg s (r.commandAggregateID command) a' records).2 <;>
    simp [hs, Repository.finish]

/-- C8 (amended): `Repository.Save` called with an empty event list returns
success without invoking the store, and an `Apply` call whose command handler
produces zero events performs no store write when the store does not
advertise the `StoreAggregate` capability (when it does, `SaveAggregate` is
still invoked — see the counterexample). -/
theorem save_empty_and_plain_apply_no_write (r : Repository σ A E C) (s : σ) (command : C)
    (hdl : A → C → Except Err (List E)) (a : A) (v : Int)
    (hplain : r.storeAggregateSave = none)
    (hid : r.commandAggregateID command ≠ "")
    (hh : r.handler = some hdl)
    (hav : r.loadOrFresh s (r.commandAggregateID command) = (a, v))
    (hnoevents : hdl a command = .ok []) :
    r.save s ([] : List E) = ⟨s, [], none⟩ ∧ (r.apply s (some command)).ops = [] := by
  refine ⟨rfl, ?_⟩
  unfold Repository.apply
  simp only [if_neg hid]
  rw [hav]
  unfold Repository.applyWith
  rw [hh]
  simp only
  rw [hnoevents]
  simp only [Repository.makeRecords]
  rw [hplain]
  simp [Repository.save, Repository.finish]

/-- A successful `Load` fold over a non-empty history reports the version of
some successfully unmarshalled event. -/
theorem loadFold_last_version (r : Repository σ A E C) :
    ∀ (history : List Record) (a0 : A) (v0 : Int) (a : A) (v : Int), history ≠ [] →
      r.loadFold a0 v0 history = .ok (a, v) →
      ∃ rec ev, r.unmarshalEvent rec = .ok ev ∧ v = r.eventVersion ev := by
  intro history
  induction history with
  | nil => intro a0 v0 a v hne; exact absurd rfl hne
  | cons rec rest ih =>
      intro a0 v0 a v _ hfold
      unfold Repository.loadFold at hfold
      cases hu : r.unmarshalEvent rec with
      | error e => rw [hu] at hfold; cases hfold
      | ok ev =>
          rw [hu] at hfold
          dsimp only at hfold
          cases ho : r.On a0 ev with
          | error e => rw [ho] at hfold; cases hfold
          | ok a1 =>
              rw [ho] at hfold
              dsimp only at hfold
              cases rest with
              | nil =>
                  unfold Repository.loadFold at hfold
                  cases hfold
                  exact ⟨rec, ev, hu, rfl⟩
              | cons rec2 rest2 =>
                  exact ih a1 (r.eventVersion ev) a v (by simp) hfold

/-- When every decodable event carries version at least 1, a successful
`Repository.Load` reports version at least 1. -/
theorem load_version_positive (r : Repository σ A E C) (s : σ) (aggregateID : String)
    (a : A) (v : Int)
    (hpos : ∀ rec ev, r.unmarshalEvent rec = .ok ev → 1 ≤ r.eventVersion ev)
    (h : r.load s aggregateID = .ok (a, v)) : 1 ≤ v := by
  unfold Repository.load at h
  cases hs : r.storeLoad s aggregateID 0 0 with
  | error e => rw [hs] at h; cases h
  | ok history =>
      rw [hs] at h
      dsimp only at h
      by_cases hlen : history.length = 0
      · rw [if_pos hlen] at h; cases h
      · rw [if_neg hlen] at h
        have hne : history ≠ [] := fun hh => hlen (by rw [hh]; rfl)
        obtain ⟨rec, ev, hu, hv⟩ := loadFold_last_version r history r.zero 0 a v hne h
        rw [hv]
        exact hpos rec ev hu

/-- Wrapping any message around `errAggregateNotFound` with `%w` preserves the
not-found classification. -/
theorem isNotFoundError_wrap (msg : String) :
    IsNotFoundError (.wrap msg errAggregateNotFound) = true := by
  simp [IsNotFoundError, Err.is, errAggregateNotFound]

/-- C5: `Repository.Load` on an aggregate identity for which the store
reports no history — either a not-found-classified error or an empty record
list — fails with an error for which `IsNotFoundError` returns true; the
wrapping layer `Repository.Load` adds preserves the classification. -/
theorem load_no_history_is_not_found (r : Repository σ A E C) (s : σ) (aggregateID : String)
    (h : r.storeLoad s aggregateID 0 0 = .ok [] ∨
      ∃ e, r.storeLoad s aggregateID 0 0 = .error e ∧ IsNotFoundError e = true) :
    ∃ e', r.load s aggregateID = .error e' ∧ IsNotFoundError e' = true := by
  unfold Repository.load
  rcases h with h | ⟨e, he, hnf⟩
  · rw [h]
    exact ⟨_, rfl, isNotFoundError_wrap _⟩
  · rw [he]
    exact ⟨e, rfl, hnf⟩

/-- C6 (amended): for every successful `Apply` call, the returned version is
the version of the last generated event when the command handler produced at
least one event; otherwise it is the version established by `Load` (0
whenever `Load` failed, since a fresh aggregate was substituted) — and,
provided decoded events carry versions at least 1, a zero version with no
generated events can only mean that `Load` failed (for any reason, not only
not-found — see the counterexample). -/
theorem apply_version_characterization (r : Repository σ A E C) (s : σ) (command : C)
    (hdl : A → C → Except Err (List E)) (a : A) (v : Int) (events : List E)
    (hid : r.commandAggregateID command ≠ "")
    (hh : r.handler = some hdl)
    (hav : r.loadOrFresh s (r.commandAggregateID command) = (a, v))
    (hevents : hdl a command = .ok events)
    (hsucc : (r.apply s (some command)).err = none) :
    ((he : events ≠ []) →
        (r.apply s (some command)).version = r.eventVersion (events.getLast he)) ∧
      (events = [] → (r.apply s (some command)).version = v) ∧
      ((∀ rec ev, r.unmarshalEvent rec = .ok ev → 1 ≤ r.eventVersion ev) →
        events = [] → (r.apply s (some command)).version = 0 →
        ∃ e, r.load s (r.commandAggregateID command) = .error e) := by
  have happ : r.apply s (some command) =
      r.applyWith s command (r.commandAggregateID command) a v := by
    unfold Repository.apply
    simp only [if_neg hid]
    rw [hav]
  have hver : (r.apply s (some command)).version =
      match events.getLast? with
      | some ev => r.eventVersion ev
      | none => v := by
    rw [happ] at hsucc ⊢
    unfold Repository.applyWith at hsucc ⊢
    rw [hh] at hsucc ⊢
    dsimp only at hsucc ⊢
    rw [hevents] at hsucc ⊢
    dsimp only at hsucc ⊢
    cases hmr : r.makeRecords events with
    | error err => rw [hmr] at hsucc; simp at hsucc
    | ok records =>
        rw [hmr] at hsucc
        dsimp only at hsucc ⊢
        cases hsa : r.storeAggregateSave with
        | some sa =>
            rw [hsa] at hsucc
            dsimp only at hsucc ⊢
            cases hae : r.applyEvents a events with
            | error err => rw [hae] at hsucc; simp at hsucc
            | ok a2 =>
                rw [hae] at hsucc
                dsimp only at hsucc ⊢
                cases hs2 : (sa s (r.commandAggregateID command) a2 records).2 with
                | some err => rw [hs2] at hsucc; simp at hsucc
                | none => simp [Repository.finish]
        | none =>
            rw [hsa] at hsucc
            dsimp only at hsucc ⊢
            cases hsv : (r.save s events).err with
            | some err => rw [hsv] at hsucc; simp at hsucc
            | none => simp [Repository.finish]
  refine ⟨?_, ?_, ?_⟩
  · intro he
    rw [hver, List.getLast?_eq_getLast events he]
  · intro he
    subst he
    rw [hver]
    simp
  · intro hpos he hzero
    cases hl : r.load s (r.commandAggregateID command) with
    | error e => exact ⟨e, rfl⟩
    | ok av0 =>
        obtain ⟨a0, v0⟩ := av0
        have heq : (a0, v0) = (a, v) := by
          have h2 := hav
          unfold Repository.loadOrFresh at h2
          rw [hl] at h2
          dsimp only at h2
          exact h2
        have hv0 : v0 = v := congrArg Prod.snd heq
        have hge := load_version_positive r s (r.commandAggregateID command) a0 v0 hpos hl
        subst he
        rw [hver] at hzero
        simp at hzero
        exfalso
        omega

/-! ## Concrete instantiations (σ = `Unit` or `MemoryStore`, A = `Nat`,
E = `Int` — an event is identified with its version — C = `String`).
Repository fields, in order: zero, On, handler, eventAggregateID,
eventVersion, eventType, commandAggregateID, marshalEvent, unmarshalEvent,
storeLoad, storeSave, storeAggregateSave, aggregateSaver, observerCount. -/

/-- A command handler producing one event of version 1. -/
def hdlOne : Nat → String → Except Err (List Int) := fun _ _ => .ok [1]

/-- A command handler producing no events. -/
def hdlNop : Nat → String → Except Err (List Int) := fun _ _ => .ok []

/-- A `StoreAggregate.SaveAggregate` implementation that always succeeds. -/
def saveAggOk : Unit → String → Nat → List Record → Unit × Option Err :=
  fun s _ _ _ => (s, none)

/-- A repository whose store's `Load` always fails with `InvalidEncoding` —
an error that is not not-found-classified. -/
def repoC2 : Repository Unit Nat Int String :=
  ⟨0, fun a _ => .ok a, some hdlOne, fun _ => "x", fun e => e, fun _ => "OrderCreated",
    fun c => c, fun e => .ok ⟨e, []⟩, fun _ => .error errInvalidEncoding,
    fun _ _ _ _ => .error errInvalidEncoding, fun s _ _ => (s, none), none, none, 0⟩

/-- Counterexample to C2 as stated: the store's `Load` fails with
`InvalidEncoding`, which is not `AggregateNotFound`-classified, yet `Apply`
returns success (version 1, nil error) — the non-not-found `Load` error was
swallowed, not propagated. -/
theorem apply_swallows_non_notfound_load_error :
    repoC2.load () "x" = .error errInvalidEncoding ∧
      IsNotFoundError errInvalidEncoding = false ∧
      (repoC2.apply () (some "x")).err = none ∧
      (repoC2.apply () (some "x")).version = 1 :=
  ⟨rfl, by decide, rfl, rfl⟩

/-- Witness for C2 (amended) at `repoC2`. -/
theorem apply_load_error_substitutes_fresh_aggregate_witness :
    repoC2.commandAggregateID "x" ≠ "" ∧
      repoC2.load () "x" = .error errInvalidEncoding ∧
      repoC2.apply () (some "x") =
        repoC2.applyWith () "x" (repoC2.commandAggregateID "x") repoC2.zero 0 :=
  ⟨by decide, rfl,
    apply_load_error_substitutes_fresh_aggregate repoC2 () "x" errInvalidEncoding
      (by decide) rfl⟩

/-- Witness for C10: a nil command makes `Apply` fail, with version 0 and no
observer invocation. -/
theorem apply_error_returns_zero_and_publishes_nothing_witness :
    (repoC2.apply () none).err ≠ none ∧
      ((repoC2.apply () none).version = 0 ∧ (repoC2.apply () none).published = []) :=
  ⟨by decide, (apply_error_returns_zero_and_publishes_nothing repoC2 () none).1 (by decide)⟩

/-- A repository over an empty-store whose store advertises the
`AggregateSaver` capability but not the deprecated `StoreAggregate` one (in
Go one concrete type cannot implement both, their `SaveAggregate` signatures
clash). -/
def repoC4 : Repository Unit Nat Int String :=
  ⟨0, fun a _ => .ok a, some hdlOne, fun _ => "x", fun e => e, fun _ => "OrderCreated",
    fun c => c, fun e => .ok ⟨e, []⟩, fun _ => .error errInvalidEncoding,
    fun _ _ _ _ => .error (.wrap "no aggregate found with id, x" errAggregateNotFound),
    fun s _ _ => (s, none), none, some (fun s _ _ _ _ => (s, none)), 0⟩

/-- Counterexample to C4 as stated: the store advertises `AggregateSaver`,
yet `Apply` persists through the plain `Save` path — `Repository.Apply` only
ever type-asserts the deprecated `StoreAggregate` interface. -/
theorem aggregateSaver_capability_ignored :
    repoC4.aggregateSaver.isSome = true ∧
      repoC4.storeAggregateSave = none ∧
      (repoC4.apply () (some "x")).ops = [.save "x" [⟨1, []⟩]] ∧
      (repoC4.apply () (some "x")).err = none :=
  ⟨rfl, rfl, rfl, rfl⟩

/-- Like `repoC4` but advertising the deprecated `StoreAggregate` capability;
`On` increments the aggregate counter so the fold is observable. -/
def repoC4w : Repository Unit Nat Int String :=
  ⟨0, fun a _ => .ok (a + 1), some hdlOne, fun _ => "x", fun e => e, fun _ => "OrderCreated",
    fun c => c, fun e => .ok ⟨e, []⟩, fun _ => .error errInvalidEncoding,
    fun _ _ _ _ => .error (.wrap "no aggregate found with id, x" errAggregateNotFound),
    fun s _ _ => (s, none), some saveAggOk, none, 0⟩

/-- Witness for C4 (amended) at `repoC4w`: the single store write is
`SaveAggregate` with the folded aggregate (0 folded through one event is 1). -/
theorem storeAggregate_path_folds_then_saves_witness :
    repoC4w.storeAggregateSave = some saveAggOk ∧
      (repoC4w.apply () (some "x")).ops = [.saveAggregate "x" 1 [⟨1, []⟩]] :=
  ⟨rfl, storeAggregate_path_folds_then_saves repoC4w () "x" saveAggOk hdlOne 0 0 [1]
    [⟨1, []⟩] 1 rfl (by decide) rfl rfl rfl rfl rfl⟩

/-- A plain-store repository whose command handler produces no events. -/
def repoC8 : Repository Unit Nat Int String :=
  ⟨0, fun a _ => .ok a, some hdlNop, fun _ => "x", fun e => e, fun _ => "OrderCreated",
    fun c => c, fun e => .ok ⟨e, []⟩, fun _ => .error errInvalidEncoding,
    fun _ _ _ _ => .error (.wrap "no aggregate found with id, x" errAggregateNotFound),
    fun s _ _ => (s, none), none, none, 0⟩

/-- Witness for C8 (amended) at `repoC8`. -/
theorem save_empty_and_plain_apply_no_write_witness :
    repoC8.save () ([] : List Int) = ⟨(), [], none⟩ ∧
      (repoC8.apply () (some "x")).ops = [] :=
  save_empty_and_plain_apply_no_write repoC8 () "x" hdlNop 0 0 rfl (by decide) rfl rfl rfl

/-- Like `repoC8` but with a `StoreAggregate`-capable store. -/
def repoC8sa : Repository Unit Nat Int String :=
  ⟨0, fun a _ => .ok a, some hdlNop, fun _ => "x", fun e => e, fun _ => "OrderCreated",
    fun c => c, fun e => .ok ⟨e, []⟩, fun _ => .error errInvalidEncoding,
    fun _ _ _ _ => .error (.wrap "no aggregate found with id, x" errAggregateNotFound),
    fun s _ _ => (s, none), some saveAggOk, none, 0⟩

/-- Counterexample to C8 as stated: with a `StoreAggregate`-capable store, a
command that produces zero events still triggers a store write —
`SaveAggregate` is invoked with the unchanged aggregate and an empty record
list. -/
theorem apply_no_events_still_calls_saveAggregate :
    repoC8sa.handler = some hdlNop ∧ hdlNop 0 "x" = .ok [] ∧
      (repoC8sa.apply () (some "x")).ops = [.saveAggregate "x" 0 []] ∧
      (repoC8sa.apply () (some "x")).err = none :=
  ⟨rfl, rfl, rfl, rfl⟩

/-- A repository whose store holds one record but whose serializer cannot
decode it. -/
def repoC6 : Repository Unit Nat Int String :=
  ⟨0, fun a _ => .ok a, some hdlNop, fun _ => "x", fun e => e, fun _ => "OrderCreated",
    fun c => c, fun e => .ok ⟨e, []⟩, fun _ => .error errUnboundEventType,
    fun _ _ _ _ => .ok [⟨1, []⟩], fun s _ _ => (s, none), none, none, 0⟩

/-- Counterexample to C6 as stated: the store holds a record (`Load` found
history) but decoding fails with `UnboundEventType` (not a not-found
condition); `Apply` with a no-event command still succeeds returning version
0 — so a zero version does not imply that `Load` found nothing. -/
theorem apply_version_zero_with_nonempty_history :
    repoC6.storeLoad () "x" 0 0 = .ok [⟨1, []⟩] ∧
      repoC6.load () "x" = .error errUnboundEventType ∧
      IsNotFoundError errUnboundEventType = false ∧
      (repoC6.apply () (some "x")).err = none ∧
      (repoC6.apply () (some "x")).version = 0 :=
  ⟨rfl, rfl, by decide, rfl, rfl⟩

/-- Witness for C6 (amended) at `repoC6`. -/
theorem apply_version_characterization_witness :
    (repoC6.apply () (some "x")).err = none ∧
      (([] : List Int) = [] → (repoC6.apply () (some "x")).version = 0) :=
  ⟨rfl,
    (apply_version_characterization repoC6 () "x" hdlNop 0 0 [] (by decide) rfl rfl rfl
      rfl).2.1⟩

/-- A repository bound to the reference in-memory store. -/
def repoC5 : Repository MemoryStore Nat Int String :=
  ⟨0, fun a _ => .ok a, none, fun _ => "x", fun e => e, fun _ => "OrderCreated",
    fun c => c, fun e => .ok ⟨e, []⟩, fun _ => .error errInvalidEncoding,
    fun s id f t => s.load id f t, fun s id recs => (s.save id recs, none), none, none, 0⟩

/-- Witness for C5: loading a never-saved identity from the in-memory store
fails not-found-classified, and `Repository.Load` keeps the classification. -/
theorem load_no_history_is_not_found_witness :
    (∃ e, repoC5.storeLoad newMemoryStore "ghost" 0 0 = .error e ∧
        IsNotFoundError e = true) ∧
      ∃ e', repoC5.load newMemoryStore "ghost" = .error e' ∧ IsNotFoundError e' = true :=
  ⟨⟨.wrap "no aggregate found with id, ghost" errAggregateNotFound, rfl, by decide⟩,
    load_no_history_is_not_found repoC5 newMemoryStore "ghost"
      (Or.inr ⟨.wrap "no aggregate found with id, ghost" errAggregateNotFound, rfl,
        by decide⟩)⟩

/-- A repository whose aggregate rejects every event with the error `boom`. -/
def repoC3 : Repository Unit Nat Int String :=
  ⟨0, fun _ _ => .error (.base "boom"), none, fun _ => "x", fun e => e,
    fun _ => "OrderCreated", fun c => c, fun e => .ok ⟨e, []⟩,
    fun rec => .ok rec.version, fun _ _ _ _ => .ok [⟨1, []⟩],
    fun s _ _ => (s, none), none, none, 0⟩

/-- C3: when the aggregate's `On` handler rejects a decoded event,
`Repository.Load` fails with an error that wraps the aggregate's own failure
and names the offending event type in its message — but the error is NOT
classified as `UnhandledEvent`: the code never wraps `errUnhandledEvent`
(declared and documented in `errors.go` for exactly this situation), so
`xerrors.Is(err, errUnhandledEvent)` is false. -/
theorem load_unhandled_event_not_classified :
    repoC3.load () "x" =
        .error (.wrap "aggregate was unable to handle event, OrderCreated" (.base "boom")) ∧
      Err.is (.wrap "aggregate was unable to handle event, OrderCreated" (.base "boom"))
          errUnhandledEvent = false ∧
      Err.is (.wrap "aggregate was unable to handle event, OrderCreated" (.base "boom"))
          (.base "boom") = true :=
  ⟨rfl, by decide, by decide⟩

end EventSource
